import Mathlib

/-
Verification of the SCSU (Standard Compression Scheme for Unicode) codec
against its design specification.

The decoder is embedded from the Go source (Decoder.defineWindow,
Decoder.defineExtendedWindow, Decoder.expandUnicode, Decoder.expandSingleByte,
Decoder.readRune, Decoder.ReadString, Decode).  Bytes are modelled as Nat
values below 256, runes as Int (Go's rune is int32; every value produced here
fits easily).  Fallible operations return Except.  Out-of-range list indexing,
which would panic in Go, is modelled by the distinguished error DErr.oob so
that panic-freedom is a provable statement.
-/

namespace Scsu

/-- Modelled from the spec: single-byte-mode command byte constants.  The
repository's constants file is not under src/; the values are the fixed wire
format constants of §6 (SCSU, UTS #6, referenced by the README). -/
def SQ0 : Nat := 0x01

def SQ7 : Nat := 0x08

def SDX : Nat := 0x0B

def Srs : Nat := 0x0C

def SQU : Nat := 0x0E

def SCU : Nat := 0x0F

def SC0 : Nat := 0x10

def SC7 : Nat := 0x17

def SD0 : Nat := 0x18

def SD7 : Nat := 0x1F

/-- Modelled from the spec: unicode-mode command byte constants (same missing
constants file, same wire-format source). -/
def UC0 : Nat := 0xE0

def UC7 : Nat := 0xE7

def UD0 : Nat := 0xE8

def UD7 : Nat := 0xEF

def UQU : Nat := 0xF0

def UDX : Nat := 0xF1

/-- Modelled from the spec: window-offset derivation thresholds.  The constants
file is not under src/.  §3 fixes them: the gap region skipped is
0x3400..0xDFFF, so indexes below 0x68 map directly (0x68 <<< 7 = 0x3400) and
gapOffset = 0xE000 - 0x3400 = 0xAC00; the fixed-offset indexes are
0xF9..0xFF (see also the doc comment of defineWindow in the source: 167 legal
index values, 0x67 + 0x40). -/
def gapThreshold : Nat := 0x68

def gapOffset : Int := 0xAC00

def reservedStart : Nat := 0xA8

def fixedThreshold : Nat := 0xF9

/-- Modelled from the spec: the Fixed Offset Table of §3 (7 special absolute
offsets for scripts straddling half-block boundaries, indexes 0xF9..0xFF),
values per UTS #6. -/
def fixedOffset : List Int :=
  [0x00C0, 0x0250, 0x0370, 0x0530, 0x3040, 0x30A0, 0xFF60]

/-- Modelled from the spec: the Static Offset Table of §3 (8 fixed base
offsets; window 0 is the transparent ASCII window per §4.2), values per
UTS #6. -/
def staticOffset : List Int :=
  [0x0000, 0x0080, 0x0100, 0x0300, 0x2000, 0x2080, 0x2100, 0x3000]

/-- Decoder error taxonomy as realised by the Go code: io.EOF (clean end of
input), io.ErrUnexpectedEOF, ErrIllegalInput, the ad-hoc formatted error
returned by defineWindow for a reserved offset index (carrying the offending
byte), and oob marking an out-of-range slice access, which in Go would be a
runtime panic. -/
inductive DErr where
  | eof
  | unexpectedEOF
  | illegalInput
  | windowOffset (offset : Nat)
  | oob
deriving DecidableEq

/-- Decoder state: the eight dynamic window base offsets, the active window
index and the mode flag, exactly the mutable fields of the Go Decoder
(scsu.dynamicOffset, scsu.window, Decoder.unicodeMode). -/
structure DState where
  dynamicOffset : List Int
  window : Nat
  unicodeMode : Bool
deriving DecidableEq

/-- Modelled from the spec: the initial Window State installed by the missing
init() of the constants file — single-byte mode, active window 0, and the
default dynamic window offsets of UTS #6 (§3: state is created fresh per
stream). -/
def initialState : DState :=
  { dynamicOffset := [0x0080, 0x00C0, 0x0400, 0x0600, 0x0900, 0x3040, 0x30A0, 0xFF00]
    window := 0
    unicodeMode := false }

/-- List indexing that reports an out-of-range access as DErr.oob, mirroring
the Go slice access that would panic. -/
def listGet (l : List Int) (i : Nat) : Except DErr Int :=
  if h : i < l.length then .ok (l.get ⟨i, h⟩) else .error .oob

/-- Embedding of Go's utf16.IsSurrogate: true for any value in the surrogate
range 0xD800..0xDFFF (high or low). -/
def isSurrogate (r : Int) : Bool :=
  0xD800 ≤ r && r < 0xE000

/-- Embedding of Go's utf16.DecodeRune: combines a high/low surrogate pair
into a supplementary scalar value, and yields U+FFFD for any other pair. -/
def decodeRunePair (r1 r2 : Int) : Int :=
  if 0xD800 ≤ r1 && r1 < 0xDC00 && 0xDC00 ≤ r2 && r2 < 0xE000 then
    (r1 - 0xD800) * 1024 + (r2 - 0xDC00) + 0x10000
  else 0xFFFD

/-- Embedding of Decoder.defineWindow: derives a base offset from the offset
byte, stores it in the given window and makes that window active.  Offset 0
yields ErrIllegalInput, a reserved offset (reservedStart ≤ b < fixedThreshold)
yields the formatted error; all other offsets succeed. -/
def defineWindow (d : DState) (iWindow : Nat) (offset : Nat) : Except DErr DState :=
  if offset = 0 then .error .illegalInput
  else if offset < gapThreshold then
    .ok { d with
          dynamicOffset := d.dynamicOffset.set iWindow ((offset : Int) * 128),
          window := iWindow }
  else if offset < reservedStart then
    .ok { d with
          dynamicOffset := d.dynamicOffset.set iWindow ((offset : Int) * 128 + gapOffset),
          window := iWindow }
  else if offset < fixedThreshold then .error (.windowOffset offset)
  else
    match listGet fixedOffset (offset - fixedThreshold) with
    | .error e => .error e
    | .ok v =>
      .ok { d with
            dynamicOffset := d.dynamicOffset.set iWindow v,
            window := iWindow }

/-- Embedding of Decoder.defineExtendedWindow: the top 3 bits of the 16-bit
descriptor select the window, the low 13 bits shifted by 7 plus 0x10000 give
the supplementary-plane base offset; the window is made active. -/
def defineExtendedWindow (d : DState) (chOffset : Nat) : DState :=
  { d with
    dynamicOffset :=
      d.dynamicOffset.set (chOffset >>> 13) (((chOffset &&& 0x1FFF : Nat) : Int) * 128 + 0x10000),
    window := chOffset >>> 13 }

/-- Embedding of Decoder.readUint16 (big-endian 16-bit read; any end of input
inside it is reported as unexpected end of input). -/
def readUint16 (l : List Nat) : Except DErr (Nat × List Nat) :=
  match l with
  | b1 :: b2 :: rest => .ok (b1 * 256 + b2, rest)
  | _ => .error .unexpectedEOF

/-- Embedding of the UQU branch of Decoder.expandUnicode and the SQU branch of
Decoder.expandSingleByte (both read one raw big-endian 16-bit value and emit
it directly, leaving the state unchanged). -/
def quoteUnicodeChar (d : DState) (rest : List Nat) : Except DErr (Int × DState × List Nat) :=
  match readUint16 rest with
  | .error e => .error e
  | .ok (r, rest1) => .ok ((r : Int), d, rest1)

/-- Embedding of the final (data) branch of Decoder.expandUnicode: the command
byte and a second byte form a 16-bit unit; a surrogate lead unit requires a
following 16-bit unit that utf16.IsSurrogate accepts and the pair goes through
utf16.DecodeRune, any other unit is emitted directly. -/
def dataUnicode (d : DState) (b : Nat) (rest : List Nat) : Except DErr (Int × DState × List Nat) :=
  match rest with
  | [] => .error .unexpectedEOF
  | b1 :: rest1 =>
    if isSurrogate ((b : Int) * 256 + (b1 : Int)) then
      match readUint16 rest1 with
      | .error e => .error e
      | .ok (c, rest2) =>
        if isSurrogate (c : Int) then
          .ok (decodeRunePair ((b : Int) * 256 + (b1 : Int)) (c : Int), d, rest2)
        else .error .illegalInput
    else .ok ((b : Int) * 256 + (b1 : Int), d, rest1)

/-- Embedding of the SQ0..SQ7 branch of Decoder.expandSingleByte: quote one
byte through static/dynamic window pair b - SQ0 without touching the state. -/
def quoteSingle (d : DState) (b : Nat) (rest : List Nat) : Except DErr (Int × DState × List Nat) :=
  match rest with
  | [] => .error .unexpectedEOF
  | b2 :: rest1 =>
    if b2 < 0x80 then
      match listGet staticOffset (b - SQ0) with
      | .error e => .error e
      | .ok v => .ok ((b2 : Int) + v, d, rest1)
    else
      match listGet d.dynamicOffset (b - SQ0) with
      | .error e => .error e
      | .ok v => .ok ((b2 : Int) - 128 + v, d, rest1)

/-- Embedding of the default branch of Decoder.expandSingleByte: a plain data
byte below 0x80 goes through static window 0, one at or above 0x80 through the
active dynamic window. -/
def plainSingle (d : DState) (b : Nat) (rest : List Nat) : Except DErr (Int × DState × List Nat) :=
  if b < 0x80 then
    match listGet staticOffset 0 with
    | .error e => .error e
    | .ok v => .ok ((b : Int) + v, d, rest)
  else
    match listGet d.dynamicOffset d.window with
    | .error e => .error e
    | .ok v => .ok ((b : Int) - 128 + v, d, rest)

/-- Embedding of Decoder.readRune with Decoder.expandSingleByte and
Decoder.expandUnicode inlined: the Go control flow where a state-only command
returns the sentinel -1 and the caller loops is realised as direct recursion
on the remaining input (each loop iteration consumes at least one byte, so the
recursion is structural on the byte list).  Returns the decoded scalar value,
the updated state and the unconsumed input. -/
def readRune (d : DState) (l : List Nat) : Except DErr (Int × DState × List Nat) :=
  match l with
  | [] => .error .eof
  | b :: rest =>
    if d.unicodeMode then
      if UC0 ≤ b ∧ b ≤ UC7 then
        readRune { d with window := b - UC0, unicodeMode := false } rest
      else if UD0 ≤ b ∧ b ≤ UD7 then
        match rest with
        | [] => .error .unexpectedEOF
        | b1 :: rest1 =>
          match defineWindow { d with unicodeMode := false } (b - UD0) b1 with
          | .error e => .error e
          | .ok d1 => readRune d1 rest1
      else if b = UDX then
        match rest with
        | b1 :: b2 :: rest1 =>
          readRune (defineExtendedWindow { d with unicodeMode := false } (b1 * 256 + b2)) rest1
        | _ => .error .unexpectedEOF
      else if b = UQU then quoteUnicodeChar d rest
      else dataUnicode d b rest
    else
      if SQ0 ≤ b ∧ b ≤ SQ7 then quoteSingle d b rest
      else if b = SDX then
        match rest with
        | b1 :: b2 :: rest1 => readRune (defineExtendedWindow d (b1 * 256 + b2)) rest1
        | _ => .error .unexpectedEOF
      else if SD0 ≤ b ∧ b ≤ SD7 then
        match rest with
        | [] => .error .unexpectedEOF
        | b1 :: rest1 =>
          match defineWindow d (b - SD0) b1 with
          | .error e => .error e
          | .ok d1 => readRune d1 rest1
      else if SC0 ≤ b ∧ b ≤ SC7 then
        readRune { d with window := b - SC0 } rest
      else if b = SCU then
        readRune { d with unicodeMode := true } rest
      else if b = SQU then quoteUnicodeChar d rest
      else if b = Srs then .error .illegalInput
      else plainSingle d b rest

/-- Embedding of Decoder.ReadString's read loop.  Each successful readRune
consumes at least one byte, so the loop runs at most length-many times; the
fuel parameter makes the recursion structural, and readString below always
supplies sufficient fuel (readString_eq recovers the Go recursion equation
for every input). -/
def readStringAux : Nat → DState → List Nat → Except DErr (List Int)
  | 0, _, _ => .error .unexpectedEOF
  | fuel + 1, d, l =>
    match readRune d l with
    | .error .eof => .ok []
    | .error e => .error e
    | .ok (r, d1, l1) =>
      match readStringAux fuel d1 l1 with
      | .error e => .error e
      | .ok rs => .ok (r :: rs)

/-- Embedding of Decoder.ReadString: reads scalar values until end of input;
a clean end of input (io.EOF surfacing between scalar values) is success. -/
def readString (d : DState) (l : List Nat) : Except DErr (List Int) :=
  readStringAux (l.length + 1) d l

/-- Embedding of the package-level Decode: decode a whole byte buffer with a
fresh decoder. -/
def Decode (l : List Nat) : Except DErr (List Int) :=
  readString initialState l

/-- Bytes below 0x80 in single-byte mode that the switch in expandSingleByte
treats as commands rather than plain data. -/
def isSingleByteCommand (b : Nat) : Prop :=
  (SQ0 ≤ b ∧ b ≤ SQ7) ∨ b = SDX ∨ (SD0 ≤ b ∧ b ≤ SD7) ∨
    (SC0 ≤ b ∧ b ≤ SC7) ∨ b = SCU ∨ b = SQU ∨ b = Srs

instance (b : Nat) : Decidable (isSingleByteCommand b) := by
  unfold isSingleByteCommand; infer_instance

/-- Well-formed Unicode scalar value: in range and not a surrogate (the
encoder rejects anything else as invalid UTF input). -/
def WellFormedScalar (v : Nat) : Prop :=
  v ≤ 0x10FFFF ∧ ¬(0xD800 ≤ v ∧ v < 0xE000)

instance (v : Nat) : Decidable (WellFormedScalar v) := by
  unfold WellFormedScalar; infer_instance

/-- Modelled from the spec: the repository's Encoder (its source file is not
under src/).  §4.3 and §9 fix only the correctness contract — the encoder must
emit bytes that the decoder turns back into exactly the input sequence — and
leave the byte-minimisation strategy open (any conforming strategy is legal,
and the §4.3 escape hatch of direct 16-bit emission must always exist).  This
model therefore uses that always-legal strategy: switch to unicode mode once,
then emit each BMP scalar as a big-endian 16-bit unit (quoted with UQU when
its high byte collides with a unicode-mode command byte) and each
supplementary scalar as its UTF-16 surrogate pair. -/
def encodeRune (v : Nat) : List Nat :=
  if v < 0x10000 then
    if 0xE0 ≤ v / 256 ∧ v / 256 ≤ 0xF1 then [UQU, v / 256, v % 256]
    else [v / 256, v % 256]
  else
    [(0xD800 + (v - 0x10000) / 1024) / 256, (0xD800 + (v - 0x10000) / 1024) % 256,
     (0xDC00 + (v - 0x10000) % 1024) / 256, (0xDC00 + (v - 0x10000) % 1024) % 256]

/-- Modelled from the spec: whole-sequence encoding with the conforming
strategy of encodeRune (see its doc comment). -/
def Encode (s : List Nat) : List Nat :=
  SCU :: s.flatMap encodeRune

/-- Window-table well-formedness: the active window index is in range and the
dynamic offset table has its fixed length 8. -/
def Inv (d : DState) : Prop :=
  d.window < 8 ∧ d.dynamicOffset.length = 8

/-- Shape of the no-out-of-range-access statement for one readRune result. -/
def NoOob (res : Except DErr (Int × DState × List Nat)) : Prop :=
  (∀ e, res = .error e → e ≠ .oob) ∧
    (∀ r d1 l1, res = .ok (r, d1, l1) → Inv d1 ∧ ∀ x ∈ l1, x < 256)

theorem listGet_eq_getD (l : List Int) (i : Nat) (h : i < l.length) :
    listGet l i = .ok (l.getD i 0) := by
  simp [listGet, h, List.getD_eq_getElem, List.get_eq_getElem]

section Unfolding

theorem readRune_nil (d : DState) : readRune d [] = .error .eof := rfl

theorem readRune_one (d : DState) (b : Nat) :
    readRune d [b] =
      (if d.unicodeMode then
        if UC0 ≤ b ∧ b ≤ UC7 then
          readRune { d with window := b - UC0, unicodeMode := false } []
        else if UD0 ≤ b ∧ b ≤ UD7 then .error .unexpectedEOF
        else if b = UDX then .error .unexpectedEOF
        else if b = UQU then quoteUnicodeChar d []
        else dataUnicode d b []
      else
        if SQ0 ≤ b ∧ b ≤ SQ7 then quoteSingle d b []
        else if b = SDX then .error .unexpectedEOF
        else if SD0 ≤ b ∧ b ≤ SD7 then .error .unexpectedEOF
        else if SC0 ≤ b ∧ b ≤ SC7 then readRune { d with window := b - SC0 } []
        else if b = SCU then readRune { d with unicodeMode := true } []
        else if b = SQU then quoteUnicodeChar d []
        else if b = Srs then .error .illegalInput
        else plainSingle d b []) := rfl

theorem readRune_two (d : DState) (b b1 : Nat) :
    readRune d [b, b1] =
      (if d.unicodeMode then
        if UC0 ≤ b ∧ b ≤ UC7 then
          readRune { d with window := b - UC0, unicodeMode := false } [b1]
        else if UD0 ≤ b ∧ b ≤ UD7 then
          match defineWindow { d with unicodeMode := false } (b - UD0) b1 with
          | .error e => .error e
          | .ok d1 => readRune d1 []
        else if b = UDX then .error .unexpectedEOF
        else if b = UQU then quoteUnicodeChar d [b1]
        else dataUnicode d b [b1]
      else
        if SQ0 ≤ b ∧ b ≤ SQ7 then quoteSingle d b [b1]
        else if b = SDX then .error .unexpectedEOF
        else if SD0 ≤ b ∧ b ≤ SD7 then
          match defineWindow d (b - SD0) b1 with
          | .error e => .error e
          | .ok d1 => readRune d1 []
        else if SC0 ≤ b ∧ b ≤ SC7 then readRune { d with window := b - SC0 } [b1]
        else if b = SCU then readRune { d with unicodeMode := true } [b1]
        else if b = SQU then quoteUnicodeChar d [b1]
        else if b = Srs then .error .illegalInput
        else plainSingle d b [b1]) := rfl

theorem readRune_more (d : DState) (b b1 b2 : Nat) (rest : List Nat) :
    readRune d (b :: b1 :: b2 :: rest) =
      (if d.unicodeMode then
        if UC0 ≤ b ∧ b ≤ UC7 then
          readRune { d with window := b - UC0, unicodeMode := false } (b1 :: b2 :: rest)
        else if UD0 ≤ b ∧ b ≤ UD7 then
          match defineWindow { d with unicodeMode := false } (b - UD0) b1 with
          | .error e => .error e
          | .ok d1 => readRune d1 (b2 :: rest)
        else if b = UDX then
          readRune (defineExtendedWindow { d with unicodeMode := false } (b1 * 256 + b2)) rest
        else if b = UQU then quoteUnicodeChar d (b1 :: b2 :: rest)
        else dataUnicode d b (b1 :: b2 :: rest)
      else
        if SQ0 ≤ b ∧ b ≤ SQ7 then quoteSingle d b (b1 :: b2 :: rest)
        else if b = SDX then readRune (defineExtendedWindow d (b1 * 256 + b2)) rest
        else if SD0 ≤ b ∧ b ≤ SD7 then
          match defineWindow d (b - SD0) b1 with
          | .error e => .error e
          | .ok d1 => readRune d1 (b2 :: rest)
        else if SC0 ≤ b ∧ b ≤ SC7 then readRune { d with window := b - SC0 } (b1 :: b2 :: rest)
        else if b = SCU then readRune { d with unicodeMode := true } (b1 :: b2 :: rest)
        else if b = SQU then quoteUnicodeChar d (b1 :: b2 :: rest)
        else if b = Srs then .error .illegalInput
        else plainSingle d b (b1 :: b2 :: rest)) := rfl

end Unfolding

section Consumption

theorem quoteUnicodeChar_length {d : DState} {rest : List Nat} {r : Int} {d1 : DState}
    {l1 : List Nat} (h : quoteUnicodeChar d rest = .ok (r, d1, l1)) :
    l1.length + 2 = rest.length := by
  match rest with
  | [] => simp [quoteUnicodeChar, readUint16] at h
  | [a] => simp [quoteUnicodeChar, readUint16] at h
  | a :: a2 :: t =>
    simp only [quoteUnicodeChar, readUint16] at h
    cases h
    simp

theorem dataUnicode_length {d : DState} {b : Nat} {rest : List Nat} {r : Int} {d1 : DState}
    {l1 : List Nat} (h : dataUnicode d b rest = .ok (r, d1, l1)) :
    l1.length < rest.length := by
  match rest with
  | [] => simp [dataUnicode] at h
  | b1 :: rest1 =>
    simp only [dataUnicode] at h
    split at h
    · match rest1 with
      | [] => simp [readUint16] at h
      | [c] => simp [readUint16] at h
      | c1 :: c2 :: t =>
        simp only [readUint16] at h
        split at h
        · cases h; simp; omega
        · exact absurd h (by simp)
    · cases h; simp

theorem quoteSingle_length {d : DState} {b : Nat} {rest : List Nat} {r : Int} {d1 : DState}
    {l1 : List Nat} (h : quoteSingle d b rest = .ok (r, d1, l1)) :
    l1.length < rest.length := by
  match rest with
  | [] => simp [quoteSingle] at h
  | b2 :: rest1 =>
    simp only [quoteSingle] at h
    split at h
    · split at h
      · simp at h
      · cases h; simp
    · split at h
      · simp at h
      · cases h; simp

theorem plainSingle_length {d : DState} {b : Nat} {rest : List Nat} {r : Int} {d1 : DState}
    {l1 : List Nat} (h : plainSingle d b rest = .ok (r, d1, l1)) :
    l1 = rest := by
  simp only [plainSingle] at h
  split at h
  · split at h
    · simp at h
    · cases h; rfl
  · split at h
    · simp at h
    · cases h; rfl

set_option maxHeartbeats 2000000 in
theorem readRune_length {d : DState} {l : List Nat} {r : Int} {d1 : DState} {l1 : List Nat}
    (h : readRune d l = .ok (r, d1, l1)) : l1.length < l.length := by
  have main : ∀ (n : Nat) (d : DState) (l : List Nat) (r : Int) (d1 : DState) (l1 : List Nat),
      l.length ≤ n → readRune d l = .ok (r, d1, l1) → l1.length < l.length := by
    intro n
    induction n with
    | zero =>
      intro d l r d1 l1 hlen h
      match l with
      | [] => rw [readRune_nil] at h; simp at h
      | a :: t => simp at hlen
    | succ n IH =>
      intro d l r d1 l1 hlen h
      match l with
      | [] => rw [readRune_nil] at h; simp at h
      | [b] =>
        rw [readRune_one] at h
        split_ifs at h
        · rw [readRune_nil] at h; simp at h
        · have hh := quoteUnicodeChar_length h; simp at hh
        · have hh := dataUnicode_length h; simp at hh
        · have hh := quoteSingle_length h; simp at hh
        · rw [readRune_nil] at h; simp at h
        · rw [readRune_nil] at h; simp at h
        · have hh := quoteUnicodeChar_length h; simp at hh
        · have hh := plainSingle_length h; subst hh
          simp only [List.length_cons, List.length_nil]; omega
      | [b, b1] =>
        rw [readRune_two] at h
        split_ifs at h
        · have hh0 := fun hl => IH _ _ _ _ _ hl h
          have hh := hh0 (by simp only [List.length_cons, List.length_nil] at hlen ⊢; omega)
          simp only [List.length_cons, List.length_nil] at hh ⊢; omega
        · split at h
          · simp at h
          · rw [readRune_nil] at h; simp at h
        · have hh := quoteUnicodeChar_length h
          simp only [List.length_cons, List.length_nil] at hh ⊢; omega
        · have hh := dataUnicode_length h
          simp only [List.length_cons, List.length_nil] at hh ⊢; omega
        · have hh := quoteSingle_length h
          simp only [List.length_cons, List.length_nil] at hh ⊢; omega
        · split at h
          · simp at h
          · rw [readRune_nil] at h; simp at h
        · have hh0 := fun hl => IH _ _ _ _ _ hl h
          have hh := hh0 (by simp only [List.length_cons, List.length_nil] at hlen ⊢; omega)
          simp only [List.length_cons, List.length_nil] at hh ⊢; omega
        · have hh0 := fun hl => IH _ _ _ _ _ hl h
          have hh := hh0 (by simp only [List.length_cons, List.length_nil] at hlen ⊢; omega)
          simp only [List.length_cons, List.length_nil] at hh ⊢; omega
        · have hh := quoteUnicodeChar_length h
          simp only [List.length_cons, List.length_nil] at hh ⊢; omega
        · have hh := plainSingle_length h; subst hh
          simp only [List.length_cons]; omega
      | b :: b1 :: b2 :: rest =>
        rw [readRune_more] at h
        split_ifs at h
        · have hh0 := fun hl => IH _ _ _ _ _ hl h
          have hh := hh0 (by simp only [List.length_cons, List.length_nil] at hlen ⊢; omega)
          simp only [List.length_cons, List.length_nil] at hh ⊢; omega
        · split at h
          · simp at h
          · have hh0 := fun hl => IH _ _ _ _ _ hl h
            have hh := hh0 (by simp only [List.length_cons, List.length_nil] at hlen ⊢; omega)
            simp only [List.length_cons, List.length_nil] at hh ⊢; omega
        · have hh0 := fun hl => IH _ _ _ _ _ hl h
          have hh := hh0 (by simp only [List.length_cons, List.length_nil] at hlen ⊢; omega)
          simp only [List.length_cons, List.length_nil] at hh ⊢; omega
        · have hh := quoteUnicodeChar_length h
          simp only [List.length_cons, List.length_nil] at hh ⊢; omega
        · have hh := dataUnicode_length h
          simp only [List.length_cons, List.length_nil] at hh ⊢; omega
        · have hh := quoteSingle_length h
          simp only [List.length_cons, List.length_nil] at hh ⊢; omega
        · have hh0 := fun hl => IH _ _ _ _ _ hl h
          have hh := hh0 (by simp only [List.length_cons, List.length_nil] at hlen ⊢; omega)
          simp only [List.length_cons, List.length_nil] at hh ⊢; omega
        · split at h
          · simp at h
          · have hh0 := fun hl => IH _ _ _ _ _ hl h
            have hh := hh0 (by simp only [List.length_cons, List.length_nil] at hlen ⊢; omega)
            simp only [List.length_cons, List.length_nil] at hh ⊢; omega
        · have hh0 := fun hl => IH _ _ _ _ _ hl h
          have hh := hh0 (by simp only [List.length_cons, List.length_nil] at hlen ⊢; omega)
          simp only [List.length_cons, List.length_nil] at hh ⊢; omega
        · have hh0 := fun hl => IH _ _ _ _ _ hl h
          have hh := hh0 (by simp only [List.length_cons, List.length_nil] at hlen ⊢; omega)
          simp only [List.length_cons, List.length_nil] at hh ⊢; omega
        · have hh := quoteUnicodeChar_length h
          simp only [List.length_cons, List.length_nil] at hh ⊢; omega
        · have hh := plainSingle_length h; subst hh
          simp only [List.length_cons]; omega
  exact main l.length d l r d1 l1 (le_refl _) h

theorem readStringAux_congr :
    ∀ {f1 f2 : Nat} {d : DState} {l : List Nat}, l.length < f1 → l.length < f2 →
      readStringAux f1 d l = readStringAux f2 d l := by
  intro f1
  induction f1 with
  | zero => intro f2 d l h1 h2; omega
  | succ f IH =>
    intro f2 d l h1 h2
    match f2 with
    | 0 => omega
    | f2 + 1 =>
      simp only [readStringAux]
      cases hr : readRune d l with
      | error e => cases e <;> rfl
      | ok t =>
        obtain ⟨r, d1, l1⟩ := t
        have hlen := readRune_length hr
        show (match readStringAux f d1 l1 with
          | Except.error e => Except.error e
          | Except.ok rs => Except.ok (r :: rs)) =
          (match readStringAux f2 d1 l1 with
          | Except.error e => Except.error e
          | Except.ok rs => Except.ok (r :: rs))
        rw [@IH f2 d1 l1 (by omega) (by omega)]

theorem readString_eq (d : DState) (l : List Nat) :
    readString d l =
      match readRune d l with
      | .error .eof => .ok []
      | .error e => .error e
      | .ok (r, d1, l1) =>
        match readString d1 l1 with
        | .error e => .error e
        | .ok rs => .ok (r :: rs) := by
  unfold readString
  simp only [readStringAux]
  cases hr : readRune d l with
  | error e => cases e <;> rfl
  | ok t =>
    obtain ⟨r, d1, l1⟩ := t
    have hlen := readRune_length hr
    show (match readStringAux l.length d1 l1 with
      | Except.error e => Except.error e
      | Except.ok rs => Except.ok (r :: rs)) =
      (match readString d1 l1 with
      | Except.error e => Except.error e
      | Except.ok rs => Except.ok (r :: rs))
    unfold readString
    rw [@readStringAux_congr l.length (l1.length + 1) d1 l1 (by omega) (by omega)]

end Consumption

theorem readRune_cons (d : DState) (b : Nat) (rest : List Nat) :
    readRune d (b :: rest) =
      (if d.unicodeMode then
        if UC0 ≤ b ∧ b ≤ UC7 then
          readRune { d with window := b - UC0, unicodeMode := false } rest
        else if UD0 ≤ b ∧ b ≤ UD7 then
          match rest with
          | [] => .error .unexpectedEOF
          | b1 :: rest1 =>
            match defineWindow { d with unicodeMode := false } (b - UD0) b1 with
            | .error e => .error e
            | .ok d1 => readRune d1 rest1
        else if b = UDX then
          match rest with
          | b1 :: b2 :: rest1 =>
            readRune (defineExtendedWindow { d with unicodeMode := false } (b1 * 256 + b2)) rest1
          | _ => .error .unexpectedEOF
        else if b = UQU then quoteUnicodeChar d rest
        else dataUnicode d b rest
      else
        if SQ0 ≤ b ∧ b ≤ SQ7 then quoteSingle d b rest
        else if b = SDX then
          match rest with
          | b1 :: b2 :: rest1 => readRune (defineExtendedWindow d (b1 * 256 + b2)) rest1
          | _ => .error .unexpectedEOF
        else if SD0 ≤ b ∧ b ≤ SD7 then
          match rest with
          | [] => .error .unexpectedEOF
          | b1 :: rest1 =>
            match defineWindow d (b - SD0) b1 with
            | .error e => .error e
            | .ok d1 => readRune d1 rest1
        else if SC0 ≤ b ∧ b ≤ SC7 then
          readRune { d with window := b - SC0 } rest
        else if b = SCU then
          readRune { d with unicodeMode := true } rest
        else if b = SQU then quoteUnicodeChar d rest
        else if b = Srs then .error .illegalInput
        else plainSingle d b rest) := by
  match rest with
  | [] => exact readRune_one d b
  | [b1] => exact readRune_two d b b1
  | b1 :: b2 :: t => exact readRune_more d b b1 b2 t

section HelperSpecs

theorem quoteUnicodeChar_ok {d : DState} {rest : List Nat} {r : Int} {d1 : DState}
    {l1 : List Nat} (h : quoteUnicodeChar d rest = .ok (r, d1, l1)) :
    d1 = d ∧ l1 <:+ rest := by
  match rest with
  | [] => simp [quoteUnicodeChar, readUint16] at h
  | [a] => simp [quoteUnicodeChar, readUint16] at h
  | a :: a2 :: t =>
    simp only [quoteUnicodeChar, readUint16] at h
    cases h
    exact ⟨rfl, by exact ⟨[a, a2], rfl⟩⟩

theorem quoteUnicodeChar_err {d : DState} {rest : List Nat} {e : DErr}
    (h : quoteUnicodeChar d rest = .error e) : e = .unexpectedEOF := by
  match rest with
  | [] => simp only [quoteUnicodeChar, readUint16] at h; cases h; rfl
  | [a] => simp only [quoteUnicodeChar, readUint16] at h; cases h; rfl
  | a :: a2 :: t => simp [quoteUnicodeChar, readUint16] at h

theorem dataUnicode_ok {d : DState} {b : Nat} {rest : List Nat} {r : Int} {d1 : DState}
    {l1 : List Nat} (h : dataUnicode d b rest = .ok (r, d1, l1)) :
    d1 = d ∧ l1 <:+ rest := by
  match rest with
  | [] => simp [dataUnicode] at h
  | b1 :: rest1 =>
    simp only [dataUnicode] at h
    split at h
    · match rest1 with
      | [] => simp [readUint16] at h
      | [c] => simp [readUint16] at h
      | c1 :: c2 :: t =>
        simp only [readUint16] at h
        split at h
        · cases h; exact ⟨rfl, ⟨[b1, c1, c2], rfl⟩⟩
        · simp at h
    · cases h; exact ⟨rfl, ⟨[b1], rfl⟩⟩

theorem dataUnicode_err {d : DState} {b : Nat} {rest : List Nat} {e : DErr}
    (h : dataUnicode d b rest = .error e) :
    e = .unexpectedEOF ∨ e = .illegalInput := by
  match rest with
  | [] => simp only [dataUnicode] at h; cases h; exact Or.inl rfl
  | b1 :: rest1 =>
    simp only [dataUnicode] at h
    split at h
    · match rest1 with
      | [] => simp only [readUint16] at h; cases h; exact Or.inl rfl
      | [c] => simp only [readUint16] at h; cases h; exact Or.inl rfl
      | c1 :: c2 :: t =>
        simp only [readUint16] at h
        split at h
        · simp at h
        · cases h; exact Or.inr rfl
    · simp at h

theorem quoteSingle_ok {d : DState} {b : Nat} {rest : List Nat} {r : Int} {d1 : DState}
    {l1 : List Nat} (h : quoteSingle d b rest = .ok (r, d1, l1)) :
    d1 = d ∧ l1 <:+ rest := by
  match rest with
  | [] => simp [quoteSingle] at h
  | b2 :: rest1 =>
    simp only [quoteSingle] at h
    split at h
    · split at h
      · simp at h
      · cases h; exact ⟨rfl, ⟨[b2], rfl⟩⟩
    · split at h
      · simp at h
      · cases h; exact ⟨rfl, ⟨[b2], rfl⟩⟩

theorem quoteSingle_err {d : DState} {b : Nat} {rest : List Nat} {e : DErr}
    (hb : b - SQ0 < 8) (hdw : b - SQ0 < d.dynamicOffset.length)
    (h : quoteSingle d b rest = .error e) : e = .unexpectedEOF := by
  match rest with
  | [] => simp only [quoteSingle] at h; cases h; rfl
  | b2 :: rest1 =>
    have hst : b - SQ0 < staticOffset.length := by
      simp only [staticOffset, List.length_cons, List.length_nil]
      omega
    simp only [quoteSingle, listGet] at h
    rw [dif_pos hst, dif_pos hdw] at h
    split at h <;> simp at h

theorem plainSingle_ok {d : DState} {b : Nat} {rest : List Nat} {r : Int} {d1 : DState}
    {l1 : List Nat} (h : plainSingle d b rest = .ok (r, d1, l1)) :
    d1 = d ∧ l1 = rest := by
  simp only [plainSingle] at h
  split at h
  · split at h
    · simp at h
    · cases h; exact ⟨rfl, rfl⟩
  · split at h
    · simp at h
    · cases h; exact ⟨rfl, rfl⟩

theorem plainSingle_err {d : DState} {b : Nat} {rest : List Nat} {e : DErr}
    (hdw : d.window < d.dynamicOffset.length)
    (h : plainSingle d b rest = .error e) : False := by
  have hst : (0 : Nat) < staticOffset.length := by
    simp [staticOffset]
  simp only [plainSingle, listGet] at h
  rw [dif_pos hst, dif_pos hdw] at h
  split at h <;> simp at h

theorem defineWindow_ok {d : DState} {i b : Nat} {d1 : DState}
    (h : defineWindow d i b = .ok d1) :
    d1.window = i ∧ d1.unicodeMode = d.unicodeMode ∧
      d1.dynamicOffset.length = d.dynamicOffset.length ∧
      ∀ j, j ≠ i → d1.dynamicOffset.getD j 0 = d.dynamicOffset.getD j 0 := by
  simp only [defineWindow] at h
  split_ifs at h
  · cases h
    refine ⟨rfl, rfl, by simp, fun j hj => ?_⟩
    simp [List.getD, List.getElem?_set_ne (by omega : i ≠ j)]
  · cases h
    refine ⟨rfl, rfl, by simp, fun j hj => ?_⟩
    simp [List.getD, List.getElem?_set_ne (by omega : i ≠ j)]
  · split at h
    · simp at h
    · cases h
      refine ⟨rfl, rfl, by simp, fun j hj => ?_⟩
      simp [List.getD, List.getElem?_set_ne (by omega : i ≠ j)]

set_option maxRecDepth 4000 in
theorem defineWindow_err {d : DState} {i b : Nat} {e : DErr} (hb : b < 256)
    (h : defineWindow d i b = .error e) :
    e = .illegalInput ∨ e = .windowOffset b := by
  simp only [defineWindow, gapThreshold, reservedStart, fixedThreshold] at h
  split_ifs at h
  · cases h; exact Or.inl rfl
  · cases h; exact Or.inr rfl
  · rw [listGet_eq_getD _ _ (by simp only [fixedOffset, List.length_cons, List.length_nil]; omega)] at h
    simp at h

theorem defineExtendedWindow_window {d : DState} {c : Nat} (hc : c < 65536) :
    (defineExtendedWindow d c).window = c >>> 13 ∧ c >>> 13 < 8 ∧
      (defineExtendedWindow d c).unicodeMode = d.unicodeMode ∧
      (defineExtendedWindow d c).dynamicOffset.length = d.dynamicOffset.length := by
  refine ⟨rfl, ?_, rfl, by simp only [defineExtendedWindow, List.length_set]⟩
  rw [Nat.shiftRight_eq_div_pow]
  omega

end HelperSpecs

/-- C9: decoding an empty byte stream yields the empty sequence and no error,
and ReadString treats end of input at a scalar-value boundary (the start of a
fresh readRune call, in either mode) as success. -/
theorem decode_empty_ok :
    Decode [] = .ok ([] : List Int) ∧ ∀ d : DState, readString d [] = .ok [] :=
  ⟨rfl, fun _ => rfl⟩

/-- C3, counterexample: defineWindow with offset byte 0x00 fails with the
IllegalInput error (Go's ErrIllegalInput), which is not the offset-carrying
error that realises the spec's InvalidWindowOffset; the spec's claim that the
0x00 failure carries the InvalidWindowOffset identity is false on the code. -/
theorem defineWindow_zero_error_counterexample :
    defineWindow initialState 0 0 = .error .illegalInput ∧
      ∀ b : Nat, DErr.illegalInput ≠ DErr.windowOffset b :=
  ⟨rfl, fun _ h => DErr.noConfusion h⟩

set_option maxRecDepth 4000 in
/-- C3, amended: defineWindow fails exactly when the offset byte is 0x00
(with the IllegalInput error) or lies in the reserved sub-range
[reservedStart, fixedThreshold) (with the offset-carrying error); every other
offset byte succeeds and installs the documented base offset, activating the
window. -/
theorem defineWindow_offset_cases (d : DState) (i b : Nat) (hb : b < 256) :
    (b = 0 → defineWindow d i b = .error .illegalInput) ∧
    (reservedStart ≤ b → b < fixedThreshold → defineWindow d i b = .error (.windowOffset b)) ∧
    (0 < b → b < gapThreshold → defineWindow d i b =
      .ok { d with dynamicOffset := d.dynamicOffset.set i ((b : Int) * 128), window := i }) ∧
    (gapThreshold ≤ b → b < reservedStart → defineWindow d i b =
      .ok { d with
            dynamicOffset := d.dynamicOffset.set i ((b : Int) * 128 + gapOffset),
            window := i }) ∧
    (fixedThreshold ≤ b → defineWindow d i b =
      .ok { d with
            dynamicOffset := d.dynamicOffset.set i (fixedOffset.getD (b - fixedThreshold) 0),
            window := i }) := by
  refine ⟨fun h0 => ?_, fun h1 h2 => ?_, fun h1 h2 => ?_, fun h1 h2 => ?_, fun h1 => ?_⟩
  · subst h0; rfl
  · simp only [reservedStart, fixedThreshold] at h1 h2
    simp only [defineWindow, gapThreshold, reservedStart, fixedThreshold]
    rw [if_neg (by omega), if_neg (by omega), if_neg (by omega), if_pos (by omega)]
  · simp only [gapThreshold] at h2
    simp only [defineWindow, gapThreshold]
    rw [if_neg (by omega), if_pos (by omega)]
  · simp only [gapThreshold, reservedStart] at h1 h2
    simp only [defineWindow, gapThreshold, reservedStart]
    rw [if_neg (by omega), if_neg (by omega), if_pos (by omega)]
  · simp only [fixedThreshold] at h1
    simp only [defineWindow, gapThreshold, reservedStart, fixedThreshold]
    rw [if_neg (by omega), if_neg (by omega), if_neg (by omega), if_neg (by omega)]
    rw [listGet_eq_getD _ _ (by simp only [fixedOffset, List.length_cons, List.length_nil]; omega)]

/-- C3, witness at offset bytes 0x00, 0xA8, 0x05, 0x68 and 0xF9. -/
theorem defineWindow_offset_cases_witness :
    defineWindow initialState 1 0xA8 = .error (.windowOffset 0xA8) ∧
      defineWindow initialState 1 0x05 =
        .ok { initialState with
              dynamicOffset := initialState.dynamicOffset.set 1 (0x05 * 128),
              window := 1 } :=
  ⟨(defineWindow_offset_cases initialState 1 0xA8 (by decide)).2.1 (by decide) (by decide),
   (defineWindow_offset_cases initialState 1 0x05 (by decide)).2.2.1 (by decide) (by decide)⟩

/-- C5: defineExtendedWindow is total (it never fails, by its type), selects
window descriptor / 8192 (the top 3 bits, always below 8) and installs base
offset (descriptor mod 8192) * 128 + 0x10000. -/
theorem defineExtendedWindow_spec (d : DState) (c : Nat) (hc : c < 65536) :
    (defineExtendedWindow d c).window = c / 8192 ∧ c / 8192 < 8 ∧
      (defineExtendedWindow d c).dynamicOffset =
        d.dynamicOffset.set (c / 8192) (((c % 8192 : Nat) : Int) * 128 + 0x10000) := by
  have hs : c >>> 13 = c / 8192 := by
    rw [Nat.shiftRight_eq_div_pow]
  have hm : c &&& 0x1FFF = c % 8192 := by
    have h := Nat.and_pow_two_sub_one_eq_mod c 13
    norm_num at h
    exact h
  exact ⟨hs, by omega, by simp only [defineExtendedWindow, hs, hm]⟩

/-- C5, witness at descriptor 0x2345. -/
theorem defineExtendedWindow_spec_witness :
    (defineExtendedWindow initialState 0x2345).window = 0x2345 / 8192 ∧
      0x2345 / 8192 < 8 ∧
      (defineExtendedWindow initialState 0x2345).dynamicOffset =
        initialState.dynamicOffset.set (0x2345 / 8192) (((0x2345 % 8192 : Nat) : Int) * 128 + 0x10000) :=
  defineExtendedWindow_spec initialState 0x2345 (by decide)

/-- C7: a successful defineWindow activates exactly the window it redefines
(and touches no other window offset, leaving the mode alone), and
defineExtendedWindow likewise activates the window given by the descriptor's
top 3 bits, which is always in [0, 8); the single active-window index is the
one window field of the state, so exactly one window is active at any
instant. -/
theorem define_activates_window (d d1 : DState) (i b c : Nat) :
    (defineWindow d i b = .ok d1 → d1.window = i ∧ d1.unicodeMode = d.unicodeMode ∧
      ∀ j, j ≠ i → d1.dynamicOffset.getD j 0 = d.dynamicOffset.getD j 0) ∧
    ((defineExtendedWindow d c).window = c >>> 13 ∧
      ∀ j, j ≠ c >>> 13 → (defineExtendedWindow d c).dynamicOffset.getD j 0 =
        d.dynamicOffset.getD j 0) ∧
    (c < 65536 → c >>> 13 < 8) := by
  refine ⟨fun h => ?_, ⟨rfl, fun j hj => ?_⟩, fun hc => ?_⟩
  · obtain ⟨h1, h2, _, h4⟩ := defineWindow_ok h
    exact ⟨h1, h2, h4⟩
  · simp only [defineExtendedWindow]
    simp [List.getD, List.getElem?_set_ne (by omega : c >>> 13 ≠ j)]
  · rw [Nat.shiftRight_eq_div_pow]; omega

/-- C7, witness: defining window 3 with offset byte 5 activates window 3, and
a concrete extended descriptor selects a window index below 8. -/
theorem define_activates_window_witness :
    ({ initialState with
       dynamicOffset := initialState.dynamicOffset.set 3 ((5 : Int) * 128),
       window := 3 } : DState).window = 3 ∧ (0x2345 : Nat) >>> 13 < 8 :=
  ⟨((define_activates_window initialState
      { initialState with
        dynamicOffset := initialState.dynamicOffset.set 3 ((5 : Int) * 128),
        window := 3 } 3 5 0).1 rfl).1,
   (define_activates_window initialState initialState 0 0 0x2345).2.2 (by decide)⟩

/-- C8: after an SQn command in single-byte mode the next byte is quoted
through static/dynamic window pair n — below 0x80 via staticOffset n, at or
above 0x80 via dynamicOffset n — and the decoder state (mode, active window,
all dynamic offsets) is returned unchanged. -/
theorem sq_quote_spec (d : DState) (n b2 : Nat) (rest : List Nat)
    (hm : d.unicodeMode = false) (hn : n < 8) (hl : d.dynamicOffset.length = 8)
    (hb : b2 < 256) :
    readRune d ((SQ0 + n) :: b2 :: rest) =
      .ok ((if b2 < 0x80 then (b2 : Int) + staticOffset.getD n 0
            else (b2 : Int) - 128 + d.dynamicOffset.getD n 0), d, rest) := by
  rw [readRune_cons, if_neg (by simp [hm])]
  rw [if_pos (by simp only [SQ0, SQ7]; omega)]
  simp only [quoteSingle, Nat.add_sub_cancel_left]
  split_ifs with hlt
  · rw [listGet_eq_getD _ _ (by simp only [staticOffset, List.length_cons, List.length_nil]; omega)]
  · rw [listGet_eq_getD _ _ (by rw [hl]; omega)]

/-- C8, witness: quoting 0x41 through pair 1 and 0x95 through pair 4. -/
theorem sq_quote_spec_witness :
    readRune initialState [SQ0 + 1, 0x41] =
      .ok ((if (0x41 : Nat) < 0x80 then (0x41 : Int) + staticOffset.getD 1 0
            else (0x41 : Int) - 128 + initialState.dynamicOffset.getD 1 0), initialState, []) ∧
    readRune initialState [SQ0 + 4, 0x95] =
      .ok ((if (0x95 : Nat) < 0x80 then (0x95 : Int) + staticOffset.getD 4 0
            else (0x95 : Int) - 128 + initialState.dynamicOffset.getD 4 0), initialState, []) :=
  ⟨sq_quote_spec initialState 1 0x41 [] rfl (by decide) (by decide) (by decide),
   sq_quote_spec initialState 4 0x95 [] rfl (by decide) (by decide) (by decide)⟩

/-- C4, counterexample: with active window 3 (selected by SC3 = 0x13) the
plain data byte 0x41 decodes to 0x41 through static window 0, not through the
active window's static partner staticOffset 3 = 0x300 as the claim predicts
(0x341). -/
theorem plain_low_byte_counterexample :
    readRune initialState [0x13, 0x41] =
      .ok (0x41, { initialState with window := 3 }, []) ∧
      staticOffset.getD 3 0 + (0x41 : Int) ≠ 0x41 :=
  ⟨rfl, by decide⟩

/-- C4, amended: in single-byte mode a plain data byte at or above 0x80
decodes to dynamicOffset (activeWindow) + (b - 0x80), and a plain data byte
below 0x80 that is not a command byte decodes through static window 0 —
whose base offset is 0 — regardless of the active window. -/
theorem plain_data_byte_spec (d : DState) (b : Nat) (rest : List Nat)
    (hm : d.unicodeMode = false) (hw : d.window < 8) (hl : d.dynamicOffset.length = 8)
    (hb : b < 256) :
    (0x80 ≤ b → readRune d (b :: rest) =
      .ok ((b : Int) - 128 + d.dynamicOffset.getD d.window 0, d, rest)) ∧
    (b < 0x80 → ¬isSingleByteCommand b → readRune d (b :: rest) =
      .ok ((b : Int) + staticOffset.getD 0 0, d, rest) ∧ staticOffset.getD 0 0 = 0) := by
  constructor
  · intro h8
    rw [readRune_cons, if_neg (by simp [hm])]
    rw [if_neg (by simp only [SQ0, SQ7]; omega), if_neg (by simp only [SDX]; omega),
        if_neg (by simp only [SD0, SD7]; omega), if_neg (by simp only [SC0, SC7]; omega),
        if_neg (by simp only [SCU]; omega), if_neg (by simp only [SQU]; omega),
        if_neg (by simp only [Srs]; omega)]
    simp only [plainSingle]
    rw [if_neg (by omega)]
    rw [listGet_eq_getD _ _ (by rw [hl]; omega)]
  · intro h8 hcmd
    simp only [isSingleByteCommand, not_or, not_and] at hcmd
    obtain ⟨hq, hdx, hsd, hsc, hscu, hsqu, hsrs⟩ := hcmd
    refine ⟨?_, by decide⟩
    rw [readRune_cons, if_neg (by simp [hm])]
    rw [if_neg (by intro hc; exact absurd hc.2 (by have := hq; omega)),
        if_neg hdx, if_neg (fun hc => (hsd hc.1) hc.2), if_neg (fun hc => (hsc hc.1) hc.2),
        if_neg hscu, if_neg hsqu, if_neg hsrs]
    simp only [plainSingle]
    rw [if_pos h8]
    rw [listGet_eq_getD _ _ (by simp only [staticOffset, List.length_cons, List.length_nil]; omega)]

/-- C4, witness: plain bytes 0x95 and 0x41 with active window 2. -/
theorem plain_data_byte_spec_witness :
    readRune { initialState with window := 2 } [0x95] =
      .ok ((0x95 : Int) - 128 + ({ initialState with window := 2 } : DState).dynamicOffset.getD 2 0,
        { initialState with window := 2 }, []) ∧
    (readRune { initialState with window := 2 } [0x41] =
      .ok ((0x41 : Int) + staticOffset.getD 0 0, { initialState with window := 2 }, []) ∧
      staticOffset.getD 0 0 = 0) :=
  ⟨(plain_data_byte_spec { initialState with window := 2 } 0x95 [] rfl (by decide) (by decide)
      (by decide)).1 (by decide),
   (plain_data_byte_spec { initialState with window := 2 } 0x41 [] rfl (by decide) (by decide)
      (by decide)).2 (by decide) (by decide)⟩

/-- C2, counterexample: in unicode mode a high surrogate lead unit 0xD800
followed by the 16-bit unit 0xD800 — which is not a valid low surrogate — does
not fail with IllegalInput: the decoder (Decode of SCU, D8 00, D8 00) accepts
it and silently emits U+FFFD via utf16.DecodeRune. -/
theorem highSurrogate_pair_counterexample :
    Decode [0x0F, 0xD8, 0x00, 0xD8, 0x00] = .ok [0xFFFD] ∧
      Decode [0x0F, 0xD8, 0x00, 0xD8, 0x00] ≠ .error .illegalInput :=
  ⟨rfl, fun h => by
    rw [show Decode [0x0F, 0xD8, 0x00, 0xD8, 0x00] = .ok [0xFFFD] from rfl] at h
    exact Except.noConfusion h⟩

/-- C2, amended: in unicode mode, after a high-surrogate lead unit the decoder
reads a following 16-bit unit; if that unit is not a surrogate at all it fails
with IllegalInput, if it is a high surrogate (not a valid low surrogate) it
silently emits U+FFFD, and if it is a valid low surrogate it emits exactly the
standard UTF-16 combination, leaving the state unchanged in all cases. -/
theorem unicode_surrogate_cases (d : DState) (hb1 hb2 cb1 cb2 : Nat) (rest : List Nat)
    (hm : d.unicodeMode = true) (h1 : 0xD8 ≤ hb1) (h2 : hb1 ≤ 0xDB) (h3 : hb2 < 256)
    (h4 : cb1 < 256) (h5 : cb2 < 256) :
    (cb1 * 256 + cb2 < 0xD800 ∨ 0xE000 ≤ cb1 * 256 + cb2 →
      readRune d (hb1 :: hb2 :: cb1 :: cb2 :: rest) = .error .illegalInput) ∧
    (0xD800 ≤ cb1 * 256 + cb2 → cb1 * 256 + cb2 < 0xDC00 →
      readRune d (hb1 :: hb2 :: cb1 :: cb2 :: rest) = .ok (0xFFFD, d, rest)) ∧
    (0xDC00 ≤ cb1 * 256 + cb2 → cb1 * 256 + cb2 < 0xE000 →
      readRune d (hb1 :: hb2 :: cb1 :: cb2 :: rest) =
        .ok (((hb1 : Int) * 256 + hb2 - 0xD800) * 1024 +
          ((cb1 : Int) * 256 + cb2 - 0xDC00) + 0x10000, d, rest)) := by
  have hstep : readRune d (hb1 :: hb2 :: cb1 :: cb2 :: rest) =
      dataUnicode d hb1 (hb2 :: cb1 :: cb2 :: rest) := by
    rw [readRune_cons, if_pos hm]
    rw [if_neg (by simp only [UC0, UC7]; omega), if_neg (by simp only [UD0, UD7]; omega),
        if_neg (by simp only [UDX]; omega), if_neg (by simp only [UQU]; omega)]
  have hsur : isSurrogate ((hb1 : Int) * 256 + (hb2 : Int)) = true := by
    simp only [isSurrogate, Bool.and_eq_true, decide_eq_true_eq]
    constructor <;> [omega; omega]
  refine ⟨fun hc => ?_, fun hc1 hc2 => ?_, fun hc1 hc2 => ?_⟩ <;>
    rw [hstep] <;> simp only [dataUnicode, readUint16, hsur, if_true]
  · rw [if_neg (by simp only [isSurrogate, Bool.and_eq_true, decide_eq_true_eq]; omega)]
  · rw [if_pos (by simp only [isSurrogate, Bool.and_eq_true, decide_eq_true_eq]; omega)]
    simp only [decodeRunePair]
    rw [if_neg (by simp only [Bool.and_eq_true, decide_eq_true_eq]; omega)]
  · rw [if_pos (by simp only [isSurrogate, Bool.and_eq_true, decide_eq_true_eq]; omega)]
    simp only [decodeRunePair]
    rw [if_pos (by simp only [Bool.and_eq_true, decide_eq_true_eq]; omega)]
    simp only [Except.ok.injEq, Prod.mk.injEq, and_true]
    push_cast
    ring

/-- C2, witness: lead unit 0xD835 followed by the non-surrogate 0x0041, the
high surrogate 0xD900, and the low surrogate 0xDC62. -/
theorem unicode_surrogate_cases_witness :
    readRune { initialState with unicodeMode := true } [0xD8, 0x35, 0x00, 0x41] =
      .error .illegalInput ∧
    readRune { initialState with unicodeMode := true } [0xD8, 0x35, 0xD9, 0x00] =
      .ok (0xFFFD, { initialState with unicodeMode := true }, []) ∧
    readRune { initialState with unicodeMode := true } [0xD8, 0x35, 0xDC, 0x62] =
      .ok (((0xD8 : Int) * 256 + 0x35 - 0xD800) * 1024 +
        ((0xDC : Int) * 256 + 0x62 - 0xDC00) + 0x10000,
        { initialState with unicodeMode := true }, []) :=
  ⟨(unicode_surrogate_cases { initialState with unicodeMode := true } 0xD8 0x35 0x00 0x41 []
      rfl (by decide) (by decide) (by decide) (by decide) (by decide)).1 (by decide),
   (unicode_surrogate_cases { initialState with unicodeMode := true } 0xD8 0x35 0xD9 0x00 []
      rfl (by decide) (by decide) (by decide) (by decide) (by decide)).2.1 (by decide) (by decide),
   (unicode_surrogate_cases { initialState with unicodeMode := true } 0xD8 0x35 0xDC 0x62 []
      rfl (by decide) (by decide) (by decide) (by decide) (by decide)).2.2 (by decide) (by decide)⟩

/-- Dispatch lemma: in unicode mode a lead byte outside the command ranges
falls through to the data branch of expandUnicode. -/
theorem readRune_unicode_data (d : DState) (b : Nat) (rest : List Nat)
    (hm : d.unicodeMode = true) (hb : ¬(0xE0 ≤ b ∧ b ≤ 0xF1)) :
    readRune d (b :: rest) = dataUnicode d b rest := by
  rw [readRune_cons, if_pos hm]
  rw [if_neg (by simp only [UC0, UC7]; omega), if_neg (by simp only [UD0, UD7]; omega),
      if_neg (by simp only [UDX]; omega), if_neg (by simp only [UQU]; omega)]

/-- C6: every decoder command that requires trailing bytes fails with the
UnexpectedEndOfInput error — distinct from the clean end-of-input error — when
the input ends before all its trailing bytes arrive: SQn, SDn, SDX and SQU in
single-byte mode, UDn, UDX, UQU, the second byte of a 16-bit unit and the
trailing low-surrogate unit in unicode mode.  No scalar value is emitted. -/
theorem truncation_unexpectedEOF (d0 d1 : DState) (n x b hb1 hb2 : Nat)
    (hm0 : d0.unicodeMode = false) (hm1 : d1.unicodeMode = true) (hn : n < 8)
    (hb : ¬(0xE0 ≤ b ∧ b ≤ 0xF1)) (hs1 : 0xD8 ≤ hb1) (hs2 : hb1 ≤ 0xDB) (hs3 : hb2 < 256) :
    readRune d0 [SQ0 + n] = .error .unexpectedEOF ∧
    readRune d0 [SD0 + n] = .error .unexpectedEOF ∧
    readRune d0 [SDX] = .error .unexpectedEOF ∧
    readRune d0 [SDX, x] = .error .unexpectedEOF ∧
    readRune d0 [SQU] = .error .unexpectedEOF ∧
    readRune d0 [SQU, x] = .error .unexpectedEOF ∧
    readRune d1 [UD0 + n] = .error .unexpectedEOF ∧
    readRune d1 [UDX] = .error .unexpectedEOF ∧
    readRune d1 [UDX, x] = .error .unexpectedEOF ∧
    readRune d1 [UQU] = .error .unexpectedEOF ∧
    readRune d1 [UQU, x] = .error .unexpectedEOF ∧
    readRune d1 [b] = .error .unexpectedEOF ∧
    readRune d1 [hb1, hb2] = .error .unexpectedEOF ∧
    readRune d1 [hb1, hb2, x] = .error .unexpectedEOF := by
  have hsur : isSurrogate ((hb1 : Int) * 256 + (hb2 : Int)) = true := by
    simp only [isSurrogate, Bool.and_eq_true, decide_eq_true_eq]; omega
  refine ⟨?_, ?_, ?_, ?_, ?_, ?_, ?_, ?_, ?_, ?_, ?_, ?_, ?_, ?_⟩
  · rw [readRune_cons, if_neg (by simp [hm0]), if_pos (by simp only [SQ0, SQ7]; omega)]
    simp [quoteSingle]
  · rw [readRune_cons, if_neg (by simp [hm0]), if_neg (by simp only [SQ0, SQ7, SD0]; omega),
        if_neg (by simp only [SDX, SD0]; omega), if_pos (by simp only [SD0, SD7]; omega)]
  · rw [readRune_cons, if_neg (by simp [hm0]), if_neg (by simp only [SQ0, SQ7, SDX]; omega),
        if_pos rfl]
  · rw [readRune_cons, if_neg (by simp [hm0]), if_neg (by simp only [SQ0, SQ7, SDX]; omega),
        if_pos rfl]
  · rw [readRune_cons, if_neg (by simp [hm0]), if_neg (by simp only [SQ0, SQ7, SQU]; omega),
        if_neg (by simp only [SDX, SQU]; omega), if_neg (by simp only [SD0, SD7, SQU]; omega),
        if_neg (by simp only [SC0, SC7, SQU]; omega), if_neg (by simp only [SCU, SQU]; omega),
        if_pos rfl]
    simp [quoteUnicodeChar, readUint16]
  · rw [readRune_cons, if_neg (by simp [hm0]), if_neg (by simp only [SQ0, SQ7, SQU]; omega),
        if_neg (by simp only [SDX, SQU]; omega), if_neg (by simp only [SD0, SD7, SQU]; omega),
        if_neg (by simp only [SC0, SC7, SQU]; omega), if_neg (by simp only [SCU, SQU]; omega),
        if_pos rfl]
    simp [quoteUnicodeChar, readUint16]
  · rw [readRune_cons, if_pos hm1, if_neg (by simp only [UC0, UC7, UD0]; omega),
        if_pos (by simp only [UD0, UD7]; omega)]
  · rw [readRune_cons, if_pos hm1, if_neg (by simp only [UC0, UC7, UDX]; omega),
        if_neg (by simp only [UD0, UD7, UDX]; omega), if_pos rfl]
  · rw [readRune_cons, if_pos hm1, if_neg (by simp only [UC0, UC7, UDX]; omega),
        if_neg (by simp only [UD0, UD7, UDX]; omega), if_pos rfl]
  · rw [readRune_cons, if_pos hm1, if_neg (by simp only [UC0, UC7, UQU]; omega),
        if_neg (by simp only [UD0, UD7, UQU]; omega), if_neg (by simp only [UDX, UQU]; omega),
        if_pos rfl]
    simp [quoteUnicodeChar, readUint16]
  · rw [readRune_cons, if_pos hm1, if_neg (by simp only [UC0, UC7, UQU]; omega),
        if_neg (by simp only [UD0, UD7, UQU]; omega), if_neg (by simp only [UDX, UQU]; omega),
        if_pos rfl]
    simp [quoteUnicodeChar, readUint16]
  · rw [readRune_unicode_data d1 b [] hm1 hb]
    simp [dataUnicode]
  · rw [readRune_unicode_data d1 hb1 [hb2] hm1 (by omega)]
    simp only [dataUnicode]
    rw [if_pos hsur]
    simp [readUint16]
  · rw [readRune_unicode_data d1 hb1 [hb2, x] hm1 (by omega)]
    simp only [dataUnicode]
    rw [if_pos hsur]
    simp [readUint16]

/-- C6, witness at n = 0, x = 0x41, data byte 0x04 and surrogate unit D8 35. -/
theorem truncation_unexpectedEOF_witness :
    readRune initialState [SQ0] = .error .unexpectedEOF ∧
      readRune { initialState with unicodeMode := true } [UQU] = .error .unexpectedEOF :=
  ⟨(truncation_unexpectedEOF initialState { initialState with unicodeMode := true }
      0 0x41 0x04 0xD8 0x35 rfl rfl (by decide) (by decide) (by decide) (by decide)
      (by decide)).1,
   (truncation_unexpectedEOF initialState { initialState with unicodeMode := true }
      0 0x41 0x04 0xD8 0x35 rfl rfl (by decide) (by decide) (by decide) (by decide)
      (by decide)).2.2.2.2.2.2.2.2.2.1⟩

theorem bytes_tail {a : Nat} {t : List Nat} (h : ∀ x ∈ a :: t, x < 256) :
    ∀ x ∈ t, x < 256 :=
  fun x hx => h x (List.mem_cons_of_mem _ hx)

theorem defineWindow_inv {d : DState} {i b : Nat} {d1 : DState} (hi : i < 8) (hInv : Inv d)
    (h : defineWindow d i b = .ok d1) : Inv d1 := by
  obtain ⟨h1, _, h3, _⟩ := defineWindow_ok h
  exact ⟨by rw [h1]; exact hi, by rw [h3]; exact hInv.2⟩

theorem defineExtendedWindow_inv {d : DState} {c : Nat} (hc : c < 65536) (hInv : Inv d) :
    Inv (defineExtendedWindow d c) := by
  obtain ⟨h1, h2, _, h4⟩ := @defineExtendedWindow_window d c hc
  exact ⟨by rw [h1]; exact h2, by rw [h4]; exact hInv.2⟩

theorem err_body (e0 : DErr) (he0 : e0 ≠ .oob) :
    NoOob (.error e0) :=
  ⟨fun _ he => by cases he; exact he0, fun r d1 l1 h => by cases h⟩

theorem noOob_err {res : Except DErr (Int × DState × List Nat)} (h : NoOob res) :
    ∀ e, res = .error e → e ≠ .oob := h.1

theorem helper_body {d : DState} {b : Nat} {rest : List Nat} (hInv : Inv d)
    (hbytes : ∀ x ∈ b :: rest, x < 256) (res : Except DErr (Int × DState × List Nat))
    (herr : ∀ e, res = .error e → e = .unexpectedEOF ∨ e = .illegalInput)
    (hok2 : ∀ r d1 l1, res = .ok (r, d1, l1) → d1 = d ∧ l1 <:+ rest) :
    NoOob res := by
  constructor
  · intro e he hoob
    subst hoob
    rcases herr _ he with h | h <;> cases h
  · intro r d1 l1 h
    obtain ⟨hd, hsuf⟩ := hok2 _ _ _ h
    subst hd
    exact ⟨hInv, fun x hx => hbytes x (List.mem_cons_of_mem _ (hsuf.subset hx))⟩

set_option maxHeartbeats 2000000 in
theorem readRune_no_oob :
    ∀ (n : Nat) (d : DState) (l : List Nat), l.length ≤ n → Inv d → (∀ x ∈ l, x < 256) →
      NoOob (readRune d l) := by
  intro n
  induction n with
  | zero =>
    intro d l hlen hInv hbytes
    match l with
    | [] =>
      exact ⟨fun e he => by rw [readRune_nil] at he; cases he; decide,
        fun r d1 l1 h => by rw [readRune_nil] at h; cases h⟩
    | a :: t => simp at hlen
  | succ n IH =>
    intro d l hlen hInv hbytes
    match l with
    | [] =>
      exact ⟨fun e he => by rw [readRune_nil] at he; cases he; decide,
        fun r d1 l1 h => by rw [readRune_nil] at h; cases h⟩
    | b :: rest =>
    rw [readRune_cons]
    by_cases hm : d.unicodeMode = true
    · rw [if_pos hm]
      by_cases hUC : UC0 ≤ b ∧ b ≤ UC7
      · rw [if_pos hUC]
        exact IH _ rest (by simp only [List.length_cons] at hlen; omega)
          ⟨by show b - UC0 < 8; simp only [UC0, UC7] at hUC ⊢; omega, hInv.2⟩ (bytes_tail hbytes)
      · rw [if_neg hUC]
        by_cases hUD : UD0 ≤ b ∧ b ≤ UD7
        · rw [if_pos hUD]
          cases rest with
          | nil => exact err_body .unexpectedEOF (by decide)
          | cons b1 rest1 =>
            show NoOob (match defineWindow { d with unicodeMode := false } (b - UD0) b1 with
              | Except.error e => Except.error e
              | Except.ok d1 => readRune d1 rest1)
            cases hdw : defineWindow { d with unicodeMode := false } (b - UD0) b1 with
            | error e =>
              exact err_body e (by
                rcases defineWindow_err (hbytes b1 (by simp)) hdw with h | h <;> subst h <;> simp)
            | ok d1 =>
              have hdwInv := fun hi hI => defineWindow_inv hi hI hdw
              exact IH _ rest1 (by simp only [List.length_cons] at hlen; omega)
                (hdwInv (by simp only [UD0, UD7] at hUD ⊢; omega) ⟨hInv.1, hInv.2⟩)
                (bytes_tail (bytes_tail hbytes))
        · rw [if_neg hUD]
          by_cases hUDX : b = UDX
          · rw [if_pos hUDX]
            cases rest with
            | nil => exact err_body .unexpectedEOF (by decide)
            | cons b1 rest2 =>
              cases rest2 with
              | nil => exact err_body .unexpectedEOF (by decide)
              | cons b2 rest1 =>
                exact IH _ rest1 (by simp only [List.length_cons] at hlen; omega)
                  (defineExtendedWindow_inv (by
                      have hx1 := hbytes b1 (by simp)
                      have hx2 := hbytes b2 (by simp)
                      omega) ⟨hInv.1, hInv.2⟩)
                  (bytes_tail (bytes_tail (bytes_tail hbytes)))
          · rw [if_neg hUDX]
            by_cases hUQU : b = UQU
            · rw [if_pos hUQU]
              exact helper_body hInv hbytes _ (fun e he => Or.inl (quoteUnicodeChar_err he))
                (fun r d1 l1 h => quoteUnicodeChar_ok h)
            · rw [if_neg hUQU]
              exact helper_body hInv hbytes _ (fun e he => dataUnicode_err he)
                (fun r d1 l1 h => dataUnicode_ok h)
    · rw [if_neg hm]
      by_cases hSQ : SQ0 ≤ b ∧ b ≤ SQ7
      · rw [if_pos hSQ]
        exact helper_body hInv hbytes _
          (fun e he => Or.inl (quoteSingle_err (by simp only [SQ0, SQ7] at hSQ ⊢; omega)
            (by rw [hInv.2]; simp only [SQ0, SQ7] at hSQ ⊢; omega) he))
          (fun r d1 l1 h => quoteSingle_ok h)
      · rw [if_neg hSQ]
        by_cases hSDX : b = SDX
        · rw [if_pos hSDX]
          cases rest with
          | nil => exact err_body .unexpectedEOF (by decide)
          | cons b1 rest2 =>
            cases rest2 with
            | nil => exact err_body .unexpectedEOF (by decide)
            | cons b2 rest1 =>
              exact IH _ rest1 (by simp only [List.length_cons] at hlen; omega)
                (defineExtendedWindow_inv (by
                    have hx1 := hbytes b1 (by simp)
                    have hx2 := hbytes b2 (by simp)
                    omega) hInv)
                (bytes_tail (bytes_tail (bytes_tail hbytes)))
        · rw [if_neg hSDX]
          by_cases hSD : SD0 ≤ b ∧ b ≤ SD7
          · rw [if_pos hSD]
            cases rest with
            | nil => exact err_body .unexpectedEOF (by decide)
            | cons b1 rest1 =>
              show NoOob (match defineWindow d (b - SD0) b1 with
                | Except.error e => Except.error e
                | Except.ok d1 => readRune d1 rest1)
              cases hdw : defineWindow d (b - SD0) b1 with
              | error e =>
                exact err_body e (by
                  rcases defineWindow_err (hbytes b1 (by simp)) hdw with h | h <;> subst h <;> simp)
              | ok d1 =>
                have hdwInv := fun hi hI => defineWindow_inv hi hI hdw
                exact IH _ rest1 (by simp only [List.length_cons] at hlen; omega)
                  (hdwInv (by simp only [SD0, SD7] at hSD ⊢; omega) hInv)
                  (bytes_tail (bytes_tail hbytes))
          · rw [if_neg hSD]
            by_cases hSC : SC0 ≤ b ∧ b ≤ SC7
            · rw [if_pos hSC]
              exact IH _ rest (by simp only [List.length_cons] at hlen; omega)
                ⟨by show b - SC0 < 8; simp only [SC0, SC7] at hSC ⊢; omega, hInv.2⟩
                (bytes_tail hbytes)
            · rw [if_neg hSC]
              by_cases hSCU : b = SCU
              · rw [if_pos hSCU]
                exact IH _ rest (by simp only [List.length_cons] at hlen; omega)
                  ⟨hInv.1, hInv.2⟩ (bytes_tail hbytes)
              · rw [if_neg hSCU]
                by_cases hSQU : b = SQU
                · rw [if_pos hSQU]
                  exact helper_body hInv hbytes _ (fun e he => Or.inl (quoteUnicodeChar_err he))
                    (fun r d1 l1 h => quoteUnicodeChar_ok h)
                · rw [if_neg hSQU]
                  by_cases hSrs : b = Srs
                  · rw [if_pos hSrs]
                    exact err_body .illegalInput (by decide)
                  · rw [if_neg hSrs]
                    exact helper_body hInv hbytes _
                      (fun e he => absurd he (by
                        intro hhe
                        exact plainSingle_err (by rw [hInv.2]; exact hInv.1) hhe))
                      (fun r d1 l1 h => ⟨(plainSingle_ok h).1, by rw [(plainSingle_ok h).2]⟩)

theorem readString_no_oob :
    ∀ (n : Nat) (d : DState) (l : List Nat), l.length ≤ n → Inv d → (∀ x ∈ l, x < 256) →
      readString d l ≠ .error .oob := by
  intro n
  induction n with
  | zero =>
    intro d l hlen hInv hbytes
    match l with
    | [] => intro h; rw [show readString d [] = .ok [] from rfl] at h; cases h
    | a :: t => simp at hlen
  | succ n IH =>
    intro d l hlen hInv hbytes
    rw [readString_eq]
    cases hr : readRune d l with
    | error e =>
      have hne := (readRune_no_oob (n + 1) d l hlen hInv hbytes).1 e hr
      cases e <;> simp_all
    | ok t =>
      obtain ⟨r, d1, l1⟩ := t
      have hno := (readRune_no_oob (n + 1) d l hlen hInv hbytes).2 r d1 l1 hr
      have hlen1 := readRune_length hr
      have hs := IH d1 l1 (by omega) hno.1 hno.2
      show (match readString d1 l1 with
        | Except.error e => Except.error e
        | Except.ok rs => Except.ok (r :: rs)) ≠ .error .oob
      intro h
      cases hs2 : readString d1 l1 with
      | error e =>
        rw [hs2] at h
        simp only [Except.error.injEq] at h
        subst h
        exact hs hs2
      | ok rs =>
        rw [hs2] at h
        simp at h

/-- C10: on any byte input the decoder is total and never makes an
out-of-range table access: every window index it computes (from SQn, SCn, SDn
bytes, UCn and UDn bytes, and the top 3 bits of an extended descriptor) lies
in [0, 8), so Decode returns a value or an error but never the oob marker
that models a Go index-out-of-range panic, and every state reached by a
successful readRune satisfies the window invariant. -/
theorem decoder_total_no_oob (bs : List Nat) (hbytes : ∀ x ∈ bs, x < 256) :
    Decode bs ≠ .error .oob ∧
      ∀ r d1 l1, readRune initialState bs = .ok (r, d1, l1) → Inv d1 := by
  have hInv : Inv initialState := ⟨by decide, by rfl⟩
  exact ⟨readString_no_oob bs.length initialState bs (le_refl _) hInv hbytes,
    fun r d1 l1 h =>
      ((readRune_no_oob bs.length initialState bs (le_refl _) hInv hbytes).2 r d1 l1 h).1⟩

/-- C10, witness on the byte stream SC3, SD0 2, 0x41, 0x80. -/
theorem decoder_total_no_oob_witness :
    Decode [0x13, 0x18, 0x02, 0x41, 0x80] ≠ .error .oob ∧
      ∀ r d1 l1, readRune initialState [0x13, 0x18, 0x02, 0x41, 0x80] = .ok (r, d1, l1) →
        Inv d1 :=
  decoder_total_no_oob [0x13, 0x18, 0x02, 0x41, 0x80] (by decide)

set_option maxHeartbeats 1000000 in
theorem readRune_encodeRune (d : DState) (v : Nat) (rest : List Nat)
    (hm : d.unicodeMode = true) (hv : WellFormedScalar v) :
    readRune d (encodeRune v ++ rest) = .ok ((v : Int), d, rest) := by
  obtain ⟨hv1, hv2⟩ := hv
  by_cases hbmp : v < 0x10000
  · by_cases hq : 0xE0 ≤ v / 256 ∧ v / 256 ≤ 0xF1
    · have he : encodeRune v = [UQU, v / 256, v % 256] := by
        simp only [encodeRune]
        rw [if_pos hbmp, if_pos hq]
      rw [he]
      simp only [List.cons_append, List.nil_append]
      rw [readRune_cons, if_pos hm, if_neg (by decide), if_neg (by decide),
          if_neg (by decide), if_pos rfl]
      simp only [quoteUnicodeChar, readUint16]
      have hvd : v / 256 * 256 + v % 256 = v := by omega
      rw [hvd]
    · have he : encodeRune v = [v / 256, v % 256] := by
        simp only [encodeRune]
        rw [if_pos hbmp, if_neg hq]
      rw [he]
      simp only [List.cons_append, List.nil_append]
      rw [readRune_unicode_data _ _ _ hm (by omega)]
      simp only [dataUnicode]
      rw [if_neg (by simp only [isSurrogate, Bool.and_eq_true, decide_eq_true_eq]; omega)]
      simp only [Except.ok.injEq, Prod.mk.injEq, and_true]
      omega
  · have he : encodeRune v =
        [(0xD800 + (v - 0x10000) / 1024) / 256, (0xD800 + (v - 0x10000) / 1024) % 256,
         (0xDC00 + (v - 0x10000) % 1024) / 256, (0xDC00 + (v - 0x10000) % 1024) % 256] := by
      simp only [encodeRune]
      rw [if_neg hbmp]
    have hA : (v - 0x10000) / 1024 ≤ 1023 := by omega
    have hB : (v - 0x10000) % 1024 ≤ 1023 := by omega
    rw [he]
    simp only [List.cons_append, List.nil_append]
    rw [readRune_unicode_data _ _ _ hm (by omega)]
    simp only [dataUnicode, readUint16]
    rw [if_pos (by simp only [isSurrogate, Bool.and_eq_true, decide_eq_true_eq]; omega)]
    rw [if_pos (by simp only [isSurrogate, Bool.and_eq_true, decide_eq_true_eq]; omega)]
    simp only [decodeRunePair]
    rw [if_pos (by simp only [Bool.and_eq_true, decide_eq_true_eq]; omega)]
    simp only [Except.ok.injEq, Prod.mk.injEq, and_true]
    push_cast
    omega

theorem readString_encode_list :
    ∀ (s : List Nat) (d : DState), d.unicodeMode = true →
      (∀ v ∈ s, WellFormedScalar v) →
      readString d (s.flatMap encodeRune) = .ok (s.map fun v => (v : Int)) := by
  intro s
  induction s with
  | nil =>
    intro d hm hwf
    simp only [List.flatMap_nil, List.map_nil]
    rfl
  | cons v t IH =>
    intro d hm hwf
    rw [List.flatMap_cons, readString_eq,
        readRune_encodeRune d v (t.flatMap encodeRune) hm (hwf v (by simp))]
    show (match readString d (t.flatMap encodeRune) with
      | Except.error e => Except.error e
      | Except.ok rs => Except.ok ((v : Int) :: rs)) = _
    rw [IH d hm (fun x hx => hwf x (List.mem_cons_of_mem _ hx))]
    simp only [List.map_cons]
    rfl

/-- C1: round-trip — decoding the byte stream produced by encoding any
well-formed scalar-value sequence (no value beyond 0x10FFFF, no surrogate)
yields exactly that sequence, with no error from either side (the modelled
encoder is total on well-formed input and the decoder succeeds). -/
theorem decode_encode_roundtrip (s : List Nat) (hwf : ∀ v ∈ s, WellFormedScalar v) :
    Decode (Encode s) = .ok (s.map fun v => (v : Int)) := by
  have hstep : ∀ l : List Nat, readRune initialState (SCU :: l) =
      readRune { initialState with unicodeMode := true } l := by
    intro l
    rw [readRune_cons, if_neg (by decide), if_neg (by decide), if_neg (by decide),
        if_neg (by decide), if_neg (by decide), if_pos rfl]
  show readString initialState (SCU :: s.flatMap encodeRune) = _
  rw [readString_eq, hstep]
  have hrest := readString_encode_list s { initialState with unicodeMode := true } rfl hwf
  cases hr : readRune { initialState with unicodeMode := true } (s.flatMap encodeRune) with
  | error e =>
    rw [readString_eq, hr] at hrest
    cases e <;> simp_all
  | ok t =>
    obtain ⟨r, d1, l1⟩ := t
    show (match readString d1 l1 with
      | Except.error e => Except.error e
      | Except.ok rs => Except.ok (r :: rs)) = _
    rw [readString_eq, hr] at hrest
    exact hrest

/-- C1, witness: a Latin letter, a Cyrillic letter, a value whose high byte
collides with unicode-mode commands, and a supplementary-plane value. -/
theorem decode_encode_roundtrip_witness :
    Decode (Encode [0x48, 0x414, 0xE055, 0x10437]) =
      .ok [(0x48 : Int), 0x414, 0xE055, 0x10437] :=
  decode_encode_roundtrip [0x48, 0x414, 0xE055, 0x10437] (by decide)

end Scsu
